import Mathlib

/-!
# Verification of the go-mesh protocol core

A shallow embedding of the go-mesh repository's protocol layer, together
with theorems settling the specification claims about it.

Conventions used throughout:
* Go byte slices are `List Nat` with each element a byte value (0–255);
  theorems that depend on byte-ness carry an explicit bound hypothesis.
* Go strings are `List Nat` of their UTF-8 bytes.
* Go `int`/`int64` results that can be the sentinel `-1` are `Int`.
* `uint64` arithmetic wraps: modelled with explicit `% 2 ^ 64`.
* `float32` fields (RSSI/SNR averages) are modelled as exact rationals
  `ℚ`; the concrete samples the spec discusses are small integers on
  which `float32` arithmetic is exact.
* Wall-clock fields (`RxTime`, `StartTime`, …) are not modelled.
-/

namespace GoMesh

/-! ## Frame synchronizer (tcp.Connection.processByte)

Stream protocol constants from the `tcp` package. -/

def START1 : Nat := 0x94

def START2 : Nat := 0xC3

def HEADER_LEN : Nat := 4

def MAX_TO_FROM_RADIO_SIZE : Nat := 512

/-- Embedding of `Connection.processByte`: the state is the accumulation
buffer `rxBuf`; the result is the new buffer together with the payload of
a completed frame, if this byte completed one.  Mirrors the Go code: the
byte is appended, then the branch is selected on `ptr`, the length of the
buffer *before* the append; `packetLen` is the big-endian 16-bit length
read from bytes 2 and 3 of the buffer. -/
def processByte (rxBuf : List Nat) (b : Nat) : List Nat × Option (List Nat) :=
  let ptr := rxBuf.length
  let buf := rxBuf ++ [b]
  if ptr = 0 then
    if b ≠ START1 then ([], none) else (buf, none)
  else if ptr = 1 then
    if b ≠ START2 then ([], none) else (buf, none)
  else if HEADER_LEN - 1 ≤ ptr then
    let packetLen := buf.getD 2 0 * 256 + buf.getD 3 0
    if ptr = HEADER_LEN - 1 ∧ MAX_TO_FROM_RADIO_SIZE < packetLen then ([], none)
    else if packetLen + HEADER_LEN ≤ buf.length then
      ([], some ((buf.drop HEADER_LEN).take packetLen))
    else (buf, none)
  else (buf, none)

/-- Feed a sequence of bytes through `processByte` (as the stream reader
loop does), collecting every emitted frame payload in order. -/
def processBytes (rxBuf : List Nat) : List Nat → List Nat × List (List Nat)
  | [] => (rxBuf, [])
  | b :: rest =>
    let step := processByte rxBuf b
    let restResult := processBytes step.1 rest
    (restResult.1, step.2.toList ++ restResult.2)

/-! ## Varint encoding and decoding

`appendVarint` is `tcp.Connection.appendVarint`; `readVarint` is
`meshtastic.readVarint` (textually identical to `Client.readVarintAt`).
Both work on `uint64` values; `Nat` arithmetic coincides with Go on the
encoder's loop (only `&`, `|`, `>>` on values below `2^64`), and the
decoder applies the explicit `% 2 ^ 64` wrap that Go's `<<` performs. -/

theorem shiftRight7_lt {value : Nat} (h : 0x80 ≤ value) : value >>> 7 < value := by
  rw [Nat.shiftRight_eq_div_pow]
  exact Nat.div_lt_self (by omega) (by norm_num)

/-- The loop of `Connection.appendVarint`.  The loop runs while
`0x80 ≤ value` and each iteration shrinks `value` by `>>> 7`, so it
iterates at most `value` times; `fuel` is that bound (never exhausted:
when it reaches 0 the value is 0 and the zero-fuel case agrees with the
loop exit). -/
def appendVarintAux : Nat → List Nat → Nat → List Nat
  | 0, data, value => data ++ [value &&& 0x7F]
  | fuel + 1, data, value =>
    if 0x80 ≤ value then
      appendVarintAux fuel (data ++ [value &&& 0x7F ||| 0x80]) (value >>> 7)
    else data ++ [value &&& 0x7F]

/-- Embedding of `Connection.appendVarint`: little-endian base-128
groups, continuation via the high bit, appended to `data`. -/
def appendVarint (data : List Nat) (value : Nat) : List Nat :=
  appendVarintAux value data value

/-- The bytes `appendVarint` appends for a given value, on their own
(same fuel discipline as `appendVarintAux`). -/
def encVarintAux : Nat → Nat → List Nat
  | 0, value => [value &&& 0x7F]
  | fuel + 1, value =>
    if 0x80 ≤ value then (value &&& 0x7F ||| 0x80) :: encVarintAux fuel (value >>> 7)
    else [value &&& 0x7F]

def encVarint (value : Nat) : List Nat := encVarintAux value value

/-- The loop of `meshtastic.readVarint`, carrying the accumulated
`result` and the current `shift`.  The second component of the result is
the next offset, or `-1` for a decode failure (buffer exhausted
mid-varint, or a continuation bit still set once `shift` reaches 64).
The loop runs while `current < data.length`, so it iterates at most
`data.length - current` times; `fuel` is exactly that bound (the guard
`current < data.length` is still the one that decides every exit, and
the zero-fuel case coincides with the guard failing). -/
def readVarintAux (data : List Nat) : Nat → Nat → Nat → Nat → Nat × Int
  | 0, _, _, _ => (0, -1)
  | fuel + 1, current, result, shift =>
    if current < data.length then
      if data.getD current 0 &&& 0x80 = 0 then
        (result ||| (data.getD current 0 &&& 0x7F) <<< shift % 2 ^ 64, (current + 1 : Nat))
      else if 64 ≤ shift + 7 then (0, -1)
      else
        readVarintAux data fuel (current + 1)
          (result ||| (data.getD current 0 &&& 0x7F) <<< shift % 2 ^ 64) (shift + 7)
    else (0, -1)

/-- Embedding of `meshtastic.readVarint`: returns `(value, next_offset)`
or `(0, -1)` on failure.  (Go's `offset` parameter is an `int`; every
call site passes a non-negative value, so it is a `Nat` here.) -/
def readVarint (data : List Nat) (offset : Nat) : Nat × Int :=
  readVarintAux data (data.length - offset) offset 0 0

end GoMesh

namespace GoMesh

theorem encVarintAux_congr :
    ∀ fuel fuel' value : Nat, value ≤ fuel → value ≤ fuel' →
      encVarintAux fuel value = encVarintAux fuel' value := by
  intro fuel
  induction fuel with
  | zero =>
    intro fuel' value h h'
    have hz : value = 0 := by omega
    subst hz
    cases fuel' <;> simp [encVarintAux]
  | succ fuel ih =>
    intro fuel' value h h'
    by_cases hv : 0x80 ≤ value
    · have hlt := shiftRight7_lt hv
      cases fuel' with
      | zero => omega
      | succ fuel' =>
        rw [encVarintAux, encVarintAux, if_pos hv, if_pos hv]
        congr 1
        exact ih fuel' (value >>> 7) (by omega) (by omega)
    · cases fuel' <;> simp [encVarintAux, hv]

theorem encVarint_unfold (value : Nat) :
    encVarint value
      = if 0x80 ≤ value then (value &&& 0x7F ||| 0x80) :: encVarint (value >>> 7)
        else [value &&& 0x7F] := by
  rw [encVarint, encVarint]
  by_cases hv : 0x80 ≤ value
  · have hlt := shiftRight7_lt hv
    obtain ⟨f, hf⟩ : ∃ f, value = f + 1 := ⟨value - 1, by omega⟩
    rw [if_pos hv]
    conv_lhs => rw [hf, encVarintAux]
    rw [← hf, if_pos hv]
    congr 1
    exact encVarintAux_congr f (value >>> 7) (value >>> 7) (by omega) (Nat.le_refl _)
  · cases hz : value <;> simp [encVarintAux, hz ▸ hv, hv]

theorem appendVarintAux_eq_append :
    ∀ fuel (data : List Nat) (value : Nat),
      appendVarintAux fuel data value = data ++ encVarintAux fuel value := by
  intro fuel
  induction fuel with
  | zero => intro data value; rfl
  | succ fuel ih =>
    intro data value
    rw [appendVarintAux, encVarintAux]
    by_cases hv : 0x80 ≤ value
    · rw [if_pos hv, if_pos hv, ih]
      simp
    · rw [if_neg hv, if_neg hv]

theorem appendVarint_eq_append (value : Nat) :
    ∀ data : List Nat, appendVarint data value = data ++ encVarint value := by
  intro data
  rw [appendVarint, encVarint, appendVarintAux_eq_append]

/-- Disjoint-bits `or` is addition: the accumulated low bits `a` stay
below `2 ^ s`, so or-ing in a group shifted by `s` just adds it. -/
theorem lor_shiftLeft_eq_add {a : Nat} {s : Nat} (b : Nat) (ha : a < 2 ^ s) :
    a ||| b <<< s = b * 2 ^ s + a := by
  rw [Nat.shiftLeft_eq, Nat.lor_comm, Nat.mul_comm b (2 ^ s),
    ← Nat.mul_add_lt_is_or ha b]

/-- Key round-trip lemma: decoding from the start of an encoded value
embedded between arbitrary `pre` and `rest` bytes recovers the value
(scaled into position `shift`) and stops right after its last byte. -/
theorem readVarintAux_enc (value : Nat) :
    ∀ (pre rest : List Nat) (result shift : Nat),
      value < 2 ^ (64 - shift) → result < 2 ^ shift →
      readVarintAux (pre ++ (encVarint value ++ rest)) (encVarint value ++ rest).length
          pre.length result shift
        = (result + value * 2 ^ shift,
           ((pre.length + (encVarint value).length : Nat) : Int)) := by
  induction value using Nat.strong_induction_on with
  | _ value ih =>
    intro pre rest result shift hv hr
    have hlow : value &&& 0x7F = value % 0x80 := by
      have h7F : (0x7F : Nat) = 2 ^ 7 - 1 := by norm_num
      have h80 : (0x80 : Nat) = 2 ^ 7 := by norm_num
      rw [h7F, h80, Nat.and_pow_two_sub_one_eq_mod]
    by_cases h : 0x80 ≤ value
    · -- continuation byte, then the encoding of `value >>> 7`
      have hshift : shift + 7 ≤ 63 := by
        by_contra hc
        have h64 : 64 - shift ≤ 7 := by omega
        have : value < 2 ^ 7 :=
          lt_of_lt_of_le hv (Nat.pow_le_pow_right (by norm_num) h64)
        omega
      have hmask : value &&& 0x7F < 2 ^ 7 := by
        rw [hlow]; exact Nat.mod_lt _ (by norm_num)
      have hb : (value &&& 0x7F ||| 0x80) &&& 0x7F = value &&& 0x7F := by
        rw [Nat.and_distrib_right]
        have h1 : (0x80 : Nat) &&& 0x7F = 0 := by decide
        have h127 : (0x7F : Nat) &&& 0x7F = 0x7F := by decide
        rw [h1, Nat.and_assoc, h127, Nat.or_zero]
      have hb0 : value &&& 0x7F ||| 0x80 = 0x80 + (value &&& 0x7F) := by
        have h80 : (0x80 : Nat) = 1 <<< 7 := by decide
        rw [h80, lor_shiftLeft_eq_add 1 hmask]
        norm_num [Nat.shiftLeft_eq]
      have hcont : (value &&& 0x7F ||| 0x80) &&& 0x80 ≠ 0 := by
        rw [hb0]
        intro hzero
        have h80 : (0x80 : Nat) = 2 ^ 7 := by norm_num
        rw [h80, Nat.and_two_pow] at hzero
        have htb : (2 ^ 7 + (value &&& 0x7F)).testBit 7 = true := by
          rw [Nat.testBit_two_pow_add_eq]
          simp [Nat.testBit_lt_two_pow hmask]
        rw [htb] at hzero
        norm_num at hzero
      have henc : encVarint value = (value &&& 0x7F ||| 0x80) :: encVarint (value >>> 7) := by
        rw [encVarint_unfold]; simp [h]
      have hfuel : (encVarint value ++ rest).length
          = (encVarint (value >>> 7) ++ rest).length + 1 := by
        rw [henc]; simp
      rw [hfuel, readVarintAux, henc]
      have hcur : pre.length <
          (pre ++ ((value &&& 0x7F ||| 0x80) :: encVarint (value >>> 7) ++ rest)).length := by
        simp
      rw [if_pos hcur]
      have hget : (pre ++ ((value &&& 0x7F ||| 0x80) :: encVarint (value >>> 7) ++ rest)).getD
          pre.length 0 = value &&& 0x7F ||| 0x80 := by
        rw [List.getD_eq_getElem?_getD, List.getElem?_append_right (Nat.le_refl _)]
        simp
      rw [hget, if_neg hcont]
      have hnot64 : ¬ 64 ≤ shift + 7 := by omega
      rw [if_neg hnot64, hb]
      have hwrap : (value &&& 0x7F) <<< shift % 2 ^ 64 = (value &&& 0x7F) <<< shift := by
        rw [Nat.shiftLeft_eq]
        apply Nat.mod_eq_of_lt
        calc (value &&& 0x7F) * 2 ^ shift < 2 ^ 7 * 2 ^ shift :=
              (Nat.mul_lt_mul_right (Nat.pos_pow_of_pos shift (by norm_num))).mpr hmask
          _ = 2 ^ (7 + shift) := by rw [Nat.pow_add]
          _ ≤ 2 ^ 64 := Nat.pow_le_pow_right (by norm_num) (by omega)
      have hres1 : result ||| (value &&& 0x7F) <<< shift % 2 ^ 64
          = (value &&& 0x7F) * 2 ^ shift + result := by
        rw [hwrap, lor_shiftLeft_eq_add _ hr]
      have hres1lt : (value &&& 0x7F) * 2 ^ shift + result < 2 ^ (shift + 7) := by
        have hstep : (value &&& 0x7F) * 2 ^ shift + result
            < 2 ^ 7 * 2 ^ shift :=
          calc (value &&& 0x7F) * 2 ^ shift + result
              < (value &&& 0x7F) * 2 ^ shift + 2 ^ shift := by omega
            _ = ((value &&& 0x7F) + 1) * 2 ^ shift := by ring
            _ ≤ 2 ^ 7 * 2 ^ shift :=
                Nat.mul_le_mul_right _ (by omega)
        calc (value &&& 0x7F) * 2 ^ shift + result < 2 ^ 7 * 2 ^ shift := hstep
          _ = 2 ^ (shift + 7) := by rw [← Nat.pow_add, Nat.add_comm]
      have hv7 : value >>> 7 < 2 ^ (64 - (shift + 7)) := by
        rw [Nat.shiftRight_eq_div_pow]
        apply Nat.div_lt_of_lt_mul
        calc value < 2 ^ (64 - shift) := hv
          _ = 2 ^ (64 - (shift + 7)) * 2 ^ 7 := by
              rw [← Nat.pow_add]
              congr 1
              omega
          _ = 2 ^ 7 * 2 ^ (64 - (shift + 7)) := by ring
      have hlist : pre ++ ((value &&& 0x7F ||| 0x80) :: encVarint (value >>> 7) ++ rest)
          = (pre ++ [value &&& 0x7F ||| 0x80]) ++ (encVarint (value >>> 7) ++ rest) := by
        simp
      have hlen : pre.length + 1 = (pre ++ [value &&& 0x7F ||| 0x80]).length := by
        simp
      rw [hres1, hlist, hlen,
        ih (value >>> 7) (shiftRight7_lt h) _ rest _ (shift + 7) hv7 hres1lt]
      simp only [Prod.mk.injEq]
      constructor
      · -- value reassembly: low 7 bits plus the high part shifted by 7
        have hassemble : value % 0x80 * 2 ^ shift + value >>> 7 * 2 ^ (shift + 7)
            = value * 2 ^ shift := by
          rw [Nat.shiftRight_eq_div_pow]
          have hdecomp : value % 0x80 + value / 2 ^ 7 * 2 ^ 7 = value := by
            have hmd := Nat.mod_add_div value 0x80
            have h80 : (0x80 : Nat) = 2 ^ 7 := by norm_num
            rw [h80] at hmd
            omega
          calc value % 0x80 * 2 ^ shift + value / 2 ^ 7 * 2 ^ (shift + 7)
              = value % 0x80 * 2 ^ shift + value / 2 ^ 7 * (2 ^ 7 * 2 ^ shift) := by
                rw [← Nat.pow_add, Nat.add_comm 7 shift]
            _ = (value % 0x80 + value / 2 ^ 7 * 2 ^ 7) * 2 ^ shift := by ring
            _ = value * 2 ^ shift := by rw [hdecomp]
        rw [hlow] at *
        omega
      · simp only [List.length_append, List.length_cons, List.length_nil]
        push_cast
        ring
    · -- final byte
      have hsmall : value < 0x80 := by omega
      have hval : value &&& 0x7F = value := by
        rw [hlow, Nat.mod_eq_of_lt hsmall]
      have hterm : value &&& 0x80 = 0 := by
        have h80 : (0x80 : Nat) = 2 ^ 7 := by norm_num
        rw [h80, Nat.and_two_pow]
        have : value.testBit 7 = false :=
          Nat.testBit_lt_two_pow (by omega)
        simp [this]
      have henc : encVarint value = [value &&& 0x7F] := by
        rw [encVarint_unfold]; simp [h]
      have hfuel : (encVarint value ++ rest).length = rest.length + 1 := by
        rw [henc]; simp
      rw [hfuel, readVarintAux, henc]
      have hcur : pre.length < (pre ++ ([value &&& 0x7F] ++ rest)).length := by simp
      rw [if_pos hcur]
      have hget : (pre ++ ([value &&& 0x7F] ++ rest)).getD pre.length 0
          = value &&& 0x7F := by
        rw [List.getD_eq_getElem?_getD, List.getElem?_append_right (Nat.le_refl _)]
        simp
      have hwrap : value <<< shift % 2 ^ 64 = value <<< shift := by
        by_cases hs : shift ≤ 64
        · rw [Nat.shiftLeft_eq]
          apply Nat.mod_eq_of_lt
          calc value * 2 ^ shift < 2 ^ (64 - shift) * 2 ^ shift :=
                (Nat.mul_lt_mul_right (Nat.pos_pow_of_pos shift (by norm_num))).mpr hv
            _ = 2 ^ (64 - shift + shift) := by rw [← Nat.pow_add]
            _ ≤ 2 ^ 64 := Nat.pow_le_pow_right (by norm_num) (by omega)
        · have hz : value = 0 := by
            have h0 : 64 - shift = 0 := by omega
            rw [h0] at hv
            omega
          simp [hz]
      rw [hget, hval, if_pos hterm, hval, hwrap, lor_shiftLeft_eq_add _ hr]
      simp only [Prod.mk.injEq]
      constructor
      · omega
      · simp

/-- If every byte from the decode position on has its continuation bit
set, decoding fails with `(0, -1)`: either the buffer is exhausted
mid-varint or the tenth continuation trips the 64-bit shift bound. -/
theorem readVarintAux_all_cont (data : List Nat)
    (hdata : ∀ b ∈ data, b &&& 0x80 ≠ 0) :
    ∀ fuel current result shift,
      readVarintAux data fuel current result shift = (0, -1) := by
  intro fuel
  induction fuel with
  | zero =>
    intro current result shift
    rw [readVarintAux]
  | succ fuel ih =>
    intro current result shift
    rw [readVarintAux]
    by_cases hcur : current < data.length
    · have hmem : data.getD current 0 ∈ data := by
        rw [List.getD_eq_getElem?_getD, List.getElem?_eq_getElem hcur]
        exact List.getElem_mem _
      have hcont := hdata _ hmem
      rw [if_pos hcur, if_neg hcont]
      split
      · rfl
      · exact ih (current + 1) _ _
    · simp [hcur]

end GoMesh

namespace GoMesh

/-- C4: Varint encode/decode round trip.  For every 64-bit value,
encoding with `appendVarint` and decoding with `readVarint` from offset 0
returns the original value with next-offset equal to the encoded length;
decoding returns the failure `(0, -1)` whenever every remaining byte has
its continuation bit set (covering both an unterminated continuation
chain and a buffer exhausted mid-varint); the spec's test values
`{0, 127, 128, 300, 2^35}` round-trip with the expected lengths. -/
theorem varint_roundtrip :
    (∀ value : Nat, value < 2 ^ 64 →
      readVarint (appendVarint [] value) 0
        = (value, ((appendVarint [] value).length : Int))) ∧
    (∀ data : List Nat, (∀ b ∈ data, b &&& 0x80 ≠ 0) →
      ∀ offset, readVarint data offset = (0, -1)) ∧
    readVarint (appendVarint [] 0) 0 = (0, 1) ∧
    readVarint (appendVarint [] 127) 0 = (127, 1) ∧
    readVarint (appendVarint [] 128) 0 = (128, 2) ∧
    readVarint (appendVarint [] 300) 0 = (300, 2) ∧
    readVarint (appendVarint [] (2 ^ 35)) 0 = (2 ^ 35, 6) := by
  refine ⟨?_, ?_, ?_, ?_, ?_, ?_, ?_⟩
  · intro value hv
    rw [appendVarint_eq_append, List.nil_append, readVarint]
    have := readVarintAux_enc value [] [] 0 0 (by simpa using hv) (by norm_num)
    simpa using this
  · intro data hdata offset
    exact readVarintAux_all_cont data hdata _ offset 0 0
  all_goals decide

/-- Closed witness for `varint_roundtrip`: the round trip at 300 and the
failure clause on a two-byte buffer that ends mid-varint. -/
theorem varint_roundtrip_witness :
    readVarint (appendVarint [] 300) 0 = (300, ((appendVarint [] 300).length : Int)) ∧
    readVarint [0x80, 0xFF] 0 = (0, -1) :=
  ⟨varint_roundtrip.1 300 (by norm_num),
   varint_roundtrip.2.1 [0x80, 0xFF] (by decide) 0⟩

end GoMesh

namespace GoMesh

/-- C1: For the frame synchronizer processing one byte at a time: a byte
that is not the expected preamble byte while awaiting the first or second
preamble byte discards the buffer and resets to the initial state emitting
nothing, and a completed header whose declared big-endian 16-bit length
exceeds 512 likewise discards the buffer and resets emitting nothing;
feeding `[0x11, 0x94, 0xC3, 0x00, 0x02, 0xAA, 0xBB]` from the initial
state emits exactly one frame with payload `[0xAA, 0xBB]`, and an
oversized header declaring length 513 emits no frame while a valid frame
immediately following it is still parsed correctly. -/
theorem frame_sync_resync :
    (∀ b : Nat, b ≠ START1 → processByte [] b = ([], none)) ∧
    (∀ b : Nat, b ≠ START2 → processByte [START1] b = ([], none)) ∧
    (∀ h l : Nat, 512 < h * 256 + l →
      processByte [START1, START2, h] l = ([], none)) ∧
    processBytes [] [0x11, 0x94, 0xC3, 0x00, 0x02, 0xAA, 0xBB]
      = ([], [[0xAA, 0xBB]]) ∧
    processBytes []
        ([0x94, 0xC3, 0x02, 0x01] ++ [0x94, 0xC3, 0x00, 0x02, 0xAA, 0xBB])
      = ([], [[0xAA, 0xBB]]) := by
  refine ⟨?_, ?_, ?_, by decide, by decide⟩
  · intro b hb
    simp [processByte, hb]
  · intro b hb
    simp [processByte, hb, START1]
  · intro h l hlen
    simp only [processByte, HEADER_LEN, MAX_TO_FROM_RADIO_SIZE]
    norm_num
    omega

/-- Closed witness for `frame_sync_resync`: its universally quantified
clauses applied at concrete noise bytes and an oversized length. -/
theorem frame_sync_resync_witness :
    processByte [] 0x11 = ([], none) ∧
    processByte [START1] 0x00 = ([], none) ∧
    processByte [START1, START2, 0x02] 0x01 = ([], none) :=
  ⟨frame_sync_resync.1 0x11 (by decide),
   frame_sync_resync.2.1 0x00 (by decide),
   frame_sync_resync.2.2.1 0x02 0x01 (by decide)⟩

end GoMesh

namespace GoMesh

/-! ## Field skipping (meshtastic.skipPositionField)

`skipPositionField` (textually identical to `Client.skipField`) advances
past a field according to its wire type.  Go converts the `uint64` length
of a length-delimited field with `int(length)`; `toInt64` models that
two's-complement conversion. -/

/-- Go's `int(x)` conversion of a `uint64` value: two's-complement wrap
into the signed 64-bit range. -/
def toInt64 (n : Nat) : Int := (((n + 2 ^ 63) % 2 ^ 64 : Nat) : Int) - 2 ^ 63

theorem toInt64_of_lt {n : Nat} (h : n < 2 ^ 63) : toInt64 n = n := by
  rw [toInt64, Nat.mod_eq_of_lt (by omega)]
  push_cast
  omega

/-- Reduction of a mathematical integer into the signed 64-bit range:
models the wrap-around of Go's `int` (= `int64`) arithmetic, here the
overflowing addition `newOffset + int(length)`. -/
def wrapInt64 (z : Int) : Int := (z + 2 ^ 63) % 2 ^ 64 - 2 ^ 63

theorem wrapInt64_of_bounds {z : Int} (h0 : -2 ^ 63 ≤ z) (h1 : z < 2 ^ 63) :
    wrapInt64 z = z := by
  rw [wrapInt64, Int.emod_eq_of_lt (by omega) (by omega)]
  omega

/-- Embedding of `meshtastic.skipPositionField`: varint → skip one varint;
fixed64 → skip 8 bytes; length-delimited → read a varint length, then
report the offset just past that many bytes (Go computes
`newOffset + int(length)` in `int` arithmetic, so the sum itself wraps:
`wrapInt64` of the sum of `newOffset` and the two's-complement view of
the length); fixed32 → skip 4 bytes; any other wire type → failure
(`-1`).  Note the fixed-width and length-delimited cases perform no
bounds check against `data.length`. -/
def skipPositionField (data : List Nat) (offset : Nat) (wireType : Nat) : Int :=
  if wireType = 0 then (readVarint data offset).2
  else if wireType = 1 then (offset : Int) + 8
  else if wireType = 2 then
    if (readVarint data offset).2 = -1 then -1
    else wrapInt64 ((readVarint data offset).2 + toInt64 (readVarint data offset).1)
  else if wireType = 5 then (offset : Int) + 4
  else -1

end GoMesh

namespace GoMesh

theorem readVarint_of_exhausted (data : List Nat) (offset : Nat)
    (h : data.length ≤ offset) : readVarint data offset = (0, -1) := by
  rw [readVarint]
  have hfuel : data.length - offset = 0 := by omega
  rw [hfuel, readVarintAux]

theorem readVarint_enc (value : Nat) (rest : List Nat) (hv : value < 2 ^ 64) :
    readVarint (encVarint value ++ rest) 0
      = (value, ((encVarint value).length : Int)) := by
  have h := readVarintAux_enc value [] rest 0 0 (by simpa using hv) (by norm_num)
  simpa [readVarint] using h

/-- C3 (counterexample): `skip_field` does NOT return a failure whenever
the computed skip would run past the end of the buffer: on the empty
buffer with wire type fixed64 it returns offset 8, past the end, and not
the failure value `-1`. -/
theorem skip_field_bounds_cex :
    skipPositionField [] 0 1 = 8 ∧ (8 : Int) ≠ -1 ∧ ([] : List Nat).length < 8 := by
  refine ⟨?_, by decide, by decide⟩
  simp [skipPositionField]

/-- C3 (amended): `skip_field` advances past a field according to its wire
type — varint: one varint; fixed64: 8 bytes; length-delimited: a varint
length then that many bytes; fixed32: 4 bytes; unrecognized wire types
fail with `-1` — and returns `-1` when the varint (wire type 0) or the
length varint (wire type 2) cannot be read because the buffer is
exhausted; the fixed-width and length-delimited skips are NOT checked
against the end of the buffer, so the returned offset may lie past it
(callers treat any offset ≥ length as end of message), and the
length-delimited sum is computed in wrapping 64-bit arithmetic, so a
declared length close to `2^63` yields a wrapped negative offset (last
clause: skipping the 9-byte encoding of `2^63 - 1` returns
`9 + (2^63 - 1) - 2^64 = 8 - 2^63`, not a failure). -/
theorem skip_field_amended :
    (∀ (data : List Nat) (offset : Nat),
      skipPositionField data offset 1 = (offset : Int) + 8) ∧
    (∀ (data : List Nat) (offset : Nat),
      skipPositionField data offset 5 = (offset : Int) + 4) ∧
    (∀ (data : List Nat) (offset wt : Nat), wt ≠ 0 → wt ≠ 1 → wt ≠ 2 → wt ≠ 5 →
      skipPositionField data offset wt = -1) ∧
    (∀ (data : List Nat) (offset : Nat), data.length ≤ offset →
      skipPositionField data offset 0 = -1 ∧ skipPositionField data offset 2 = -1) ∧
    (∀ (value : Nat) (rest : List Nat), value < 2 ^ 64 →
      skipPositionField (encVarint value ++ rest) 0 0
        = ((encVarint value).length : Int)) ∧
    (∀ (value : Nat) (rest : List Nat),
        (encVarint value).length + value < 2 ^ 63 →
      skipPositionField (encVarint value ++ rest) 0 2
        = ((encVarint value).length : Int) + value) ∧
    skipPositionField (encVarint (2 ^ 63 - 1)) 0 2 = 8 - 2 ^ 63 := by
  refine ⟨?_, ?_, ?_, ?_, ?_, ?_, ?_⟩
  · intro data offset
    simp [skipPositionField]
  · intro data offset
    simp [skipPositionField]
  · intro data offset wt h0 h1 h2 h5
    simp [skipPositionField, h0, h1, h2, h5]
  · intro data offset hle
    have hr := readVarint_of_exhausted data offset hle
    constructor <;> simp [skipPositionField, hr]
  · intro value rest hv
    have hr := readVarint_enc value rest hv
    simp [skipPositionField, hr]
  · intro value rest hv
    have hr := readVarint_enc value rest (by omega)
    have hne : (((encVarint value).length : Nat) : Int) ≠ -1 := by
      omega
    have htv := toInt64_of_lt (show value < 2 ^ 63 by omega)
    have hw : wrapInt64 (((encVarint value).length : Int) + value)
        = ((encVarint value).length : Int) + value :=
      wrapInt64_of_bounds (by omega) (by omega)
    simp [skipPositionField, hr, hne, htv, hw]
  · decide

/-- Closed witness for `skip_field_amended` at concrete inputs: a fixed64
skip, an unrecognized wire type, an exhausted varint, and a
length-delimited skip over the two-byte encoding of 300. -/
theorem skip_field_amended_witness :
    skipPositionField [0, 0] 1 1 = (1 : Int) + 8 ∧
    skipPositionField [] 0 3 = -1 ∧
    skipPositionField [] 5 0 = -1 ∧
    skipPositionField (encVarint 300 ++ [9]) 0 2
      = ((encVarint 300).length : Int) + 300 :=
  ⟨skip_field_amended.1 [0, 0] 1,
   skip_field_amended.2.2.1 [] 0 3 (by decide) (by decide) (by decide) (by decide),
   (skip_field_amended.2.2.2.1 [] 5 (by norm_num)).1,
   skip_field_amended.2.2.2.2.2.1 300 [9] (by decide)⟩

end GoMesh

namespace GoMesh

/-! ## Message interpreters (meshtastic.parseUserMessage and friends) -/

/-- Outcome of a Go function that returns a pointer: a value, a runtime
panic, or non-termination.  (In `parseUserMessage`, a panic is reachable
when a declared field length has a negative `int64` interpretation that
makes the slice bound `newOffset+int(length)` smaller than `newOffset`;
and a skip whose wrapped length moves the offset backwards can make the
loop rescan, losing the `data.length` iteration bound — such runs are
reported as `diverge`.) -/
inductive GoResult (α : Type) where
  | ok (val : α)
  | panic
  | diverge
  deriving DecidableEq

/-- The three fields of `meshtastic.UserData` that `parseUserMessage`
populates (strings as UTF-8 byte lists); the remaining Go fields are
never touched by the parser. -/
structure UserData where
  id : List Nat := []
  longName : List Nat := []
  shortName : List Nat := []
  deriving DecidableEq

/-- The field loop of `parseUserMessage`.  One fuel unit per iteration;
the offset strictly increases every iteration, so `data.length + 1` fuel
is never exhausted.  Mirrors the Go loop: read a single tag byte,
dispatch fields 1/2/3 (id, long_name, short_name) with wire type 2 to
string extraction, everything else to `skipPositionField`; on a failed
extraction bound set the offset to the end (loop exits, partial result);
on a skip result of `-1` break (partial result); a negative offset other
than `-1` would index `data[offset]` and panic.  The offset strictly
increases except after a wrapped negative length-delimited skip, so fuel
can run out only on such backward-moving runs (`diverge`). -/
def parseUserLoop (data : List Nat) : Nat → Nat → UserData → GoResult UserData
  | 0, _, _ => .diverge
  | fuel + 1, offset, u =>
    if offset < data.length then
      let tag := data.getD offset 0
      let fieldNumber := tag >>> 3
      let wireType := tag &&& 0x07
      if fieldNumber = 1 ∨ fieldNumber = 2 ∨ fieldNumber = 3 then
        if wireType = 2 then
          let length := (readVarint data (offset + 1)).1
          let newOffset := (readVarint data (offset + 1)).2
          if newOffset ≠ -1 ∧ newOffset + toInt64 length ≤ (data.length : Int) then
            if toInt64 length < 0 then .panic
            else
              let value := (data.drop newOffset.toNat).take length
              let u1 := if fieldNumber = 1 then { u with id := value }
                else if fieldNumber = 2 then { u with longName := value }
                else { u with shortName := value }
              parseUserLoop data fuel (newOffset.toNat + length) u1
          else .ok u
        else
          let s := skipPositionField data (offset + 1) wireType
          if s = -1 then .ok u
          else if s < 0 then .panic
          else parseUserLoop data fuel s.toNat u
      else
        let s := skipPositionField data (offset + 1) wireType
        if s = -1 then .ok u
        else if s < 0 then .panic
        else parseUserLoop data fuel s.toNat u
    else .ok u

/-- Embedding of `meshtastic.parseUserMessage`: nil (`none`) only for
inputs shorter than 2 bytes; otherwise the loop's partial result. -/
def parseUserMessage (data : List Nat) : GoResult (Option UserData) :=
  if data.length < 2 then .ok none
  else
    match parseUserLoop data (data.length + 1) 0 {} with
    | .ok u => .ok (some u)
    | .panic => .panic
    | .diverge => .diverge

/-- `binary.LittleEndian.Uint32(data[i:i+4])` over the byte-list model. -/
def le32 (data : List Nat) (i : Nat) : Nat :=
  data.getD i 0 + data.getD (i + 1) 0 * 256 + data.getD (i + 2) 0 * 65536 +
    data.getD (i + 3) 0 * 16777216

/-- The three Position fields the spec names (§4.4): raw wire values. -/
structure PositionData where
  latitudeI : Option Nat := none
  longitudeI : Option Nat := none
  altitude : Option Nat := none
  deriving DecidableEq

/-- Modelled from the spec: `parsePositionMessage` delegates to
`proto.Unmarshal` into the generated `pb.Position` struct (package
`go-mesh/pb`, not under `src/`).  Per the protobuf wire format,
`Unmarshal` scans the buffer tag by tag and fails — and the Go function
then returns nil — as soon as any field is malformed (field number 0, a
group or unknown wire type, an unterminated varint, or a truncated
fixed-width or length-delimited value); on success the whole buffer is
consumed.  Fields per §4.4: latitude_i = fixed32 field 1, longitude_i =
fixed32 field 2, altitude = varint field 3; other well-formed fields are
skipped.  One fuel unit per field; each field occupies at least one
byte, so `data.length + 1` fuel is never exhausted. -/
def protoScanPosition (data : List Nat) : Nat → Nat → PositionData → Option PositionData
  | 0, _, _ => none
  | fuel + 1, offset, acc =>
    if offset = data.length then some acc
    else
      let tagR := readVarint data offset
      if tagR.2 = -1 then none
      else
        let fieldNumber := tagR.1 >>> 3
        let wireType := tagR.1 &&& 0x07
        let off1 := tagR.2.toNat
        if fieldNumber = 0 then none
        else if wireType = 0 then
          let vR := readVarint data off1
          if vR.2 = -1 then none
          else
            protoScanPosition data fuel vR.2.toNat
              (if fieldNumber = 3 then { acc with altitude := some vR.1 } else acc)
        else if wireType = 1 then
          if off1 + 8 ≤ data.length then protoScanPosition data fuel (off1 + 8) acc
          else none
        else if wireType = 2 then
          let lR := readVarint data off1
          if lR.2 = -1 then none
          else if lR.2.toNat + lR.1 ≤ data.length then
            protoScanPosition data fuel (lR.2.toNat + lR.1) acc
          else none
        else if wireType = 5 then
          if off1 + 4 ≤ data.length then
            protoScanPosition data fuel (off1 + 4)
              (if fieldNumber = 1 then { acc with latitudeI := some (le32 data off1) }
               else if fieldNumber = 2 then { acc with longitudeI := some (le32 data off1) }
               else acc)
          else none
        else none

/-- Modelled from the spec (see `protoScanPosition`): the Position
interpreter returns the decoded message, or nil on any decode error. -/
def parsePositionMessage (data : List Nat) : Option PositionData :=
  protoScanPosition data (data.length + 1) 0 {}

end GoMesh

namespace GoMesh

/-- C2 (counterexample): the per-message decode functions do NOT all
return partial results: the Position interpreter returns nil for an input
that begins with a well-formed field.  The buffer `[0x0D,0,0,0,0]` is a
single well-formed fixed32 latitude field and decodes; appending the
truncated length-delimited field `[0x12, 0x05]` (declared length 5, no
bytes) makes the whole decode return nil, discarding the latitude that
was already decodable. -/
theorem partial_tolerance_cex :
    parsePositionMessage [0x0D, 0, 0, 0, 0]
      = some { latitudeI := some 0 } ∧
    parsePositionMessage [0x0D, 0, 0, 0, 0, 0x12, 0x05] = none := by
  decide

/-- C2 (amended): the manual User interpreter is partial-tolerant — it
returns nil exactly for inputs shorter than 2 bytes, and on a field-level
failure it stops and returns the fields populated so far (here: a
well-formed long_name field followed by a truncated field still yields
the long_name) — while the Position interpreter, which delegates to the
protobuf library's Unmarshal, returns nil on any field-level failure even
when the input begins with a well-formed decodable field. -/
theorem partial_tolerance_amended :
    (∀ data : List Nat, parseUserMessage data = GoResult.ok none ↔ data.length < 2) ∧
    parseUserMessage [0x12, 2, 0x41, 0x42, 0x12]
      = GoResult.ok (some { longName := [0x41, 0x42] }) ∧
    parsePositionMessage [0x0D, 1, 2, 3, 4]
      = some { latitudeI := some (1 + 2 * 256 + 3 * 65536 + 4 * 16777216) } ∧
    parsePositionMessage [0x0D, 1, 2, 3, 4, 0x12, 0x05] = none := by
  refine ⟨?_, by decide, by decide, by decide⟩
  intro data
  rw [parseUserMessage]
  by_cases h : data.length < 2
  · simp [h]
  · cases hloop : parseUserLoop data (data.length + 1) 0 {} with
    | ok u => simp [h, hloop]
    | panic => simp [h, hloop]
    | diverge => simp [h, hloop]

/-- Closed witness for `partial_tolerance_amended`: its quantified clause
applied at a concrete two-byte input. -/
theorem partial_tolerance_amended_witness :
    parseUserMessage [0x08, 0x01] = GoResult.ok none ↔
      ([0x08, 0x01] : List Nat).length < 2 :=
  partial_tolerance_amended.1 [0x08, 0x01]

end GoMesh

namespace GoMesh

/-! ## Packet types, packets, queue, statistics (meshtastic.Client)

The `PacketType` constants, in the `iota` order of the Go source. -/

def PacketTypeUnknown : Nat := 0

def PacketTypePosition : Nat := 1

def PacketTypeText : Nat := 2

def PacketTypeTelemetry : Nat := 3

def PacketTypeNodeInfo : Nat := 4

def PacketTypeRouting : Nat := 5

def PacketTypeAdmin : Nat := 6

def PacketTypeRangeTest : Nat := 7

def PacketTypeNeighborInfo : Nat := 8

def PacketTypeDetectionSensor : Nat := 9

def PacketTypeRemoteHardware : Nat := 10

def PacketTypeReplyApp : Nat := 11

def PacketTypeIpTunnelApp : Nat := 12

def PacketTypeSerialApp : Nat := 13

def PacketTypeStoreForwardApp : Nat := 14

def PacketTypeRangeTestApp : Nat := 15

def PacketTypeTelemetryApp : Nat := 16

def PacketTypeZpsApp : Nat := 17

def PacketTypeSimulatorApp : Nat := 18

def PacketTypeTracerouteApp : Nat := 19

/-- The closed variants that can populate `Packet.DecodedData`
(`interface{}` in Go); the telemetry payload is not examined by any
claim and is a bare tag. -/
inductive DecodedData where
  | text (t : List Nat)
  | position (p : PositionData)
  | user (u : UserData)
  | telemetry
  | remoteHardware (hwType gpioMask gpioValue : Nat)
  deriving DecidableEq

/-- Embedding of `meshtastic.Packet` (fields `From`/`To` are `fromNode`/
`toNode`, `Type` is `type`; `RxTime` is wall-clock and not modelled;
`RxSNR` is a `float32` modelled as `ℚ`). -/
structure Packet where
  id : Nat := 0
  fromNode : Nat := 0
  toNode : Nat := 0
  type : Nat := PacketTypeUnknown
  channel : Nat := 0
  hopCount : Nat := 0
  hopLimit : Nat := 0
  wantAck : Bool := false
  priority : Nat := 0
  rxSNR : ℚ := 0
  rxRSSI : Int := 0
  payload : List Nat := []
  decodedData : Option DecodedData := none
  raw : List Nat := []
  deriving DecidableEq

/-- The `PortNumToPacketType` table, entry for entry. -/
def PortNumToPacketType : List (Nat × Nat) :=
  [(0, PacketTypeUnknown), (1, PacketTypeText), (2, PacketTypeRemoteHardware),
   (3, PacketTypePosition), (4, PacketTypeNodeInfo), (5, PacketTypeRouting),
   (6, PacketTypeAdmin), (7, PacketTypeText), (8, PacketTypePosition),
   (9, PacketTypeUnknown), (10, PacketTypeDetectionSensor), (11, PacketTypeText),
   (12, PacketTypeUnknown), (32, PacketTypeReplyApp), (33, PacketTypeIpTunnelApp),
   (34, PacketTypeUnknown), (64, PacketTypeSerialApp), (65, PacketTypeStoreForwardApp),
   (66, PacketTypeRangeTest), (67, PacketTypeTelemetry), (68, PacketTypeZpsApp),
   (69, PacketTypeSimulatorApp), (70, PacketTypeTracerouteApp), (71, PacketTypeNeighborInfo),
   (224, PacketTypeReplyApp), (256, PacketTypeReplyApp)]

/-- The port-number resolution step of `Client.parseDataMessage`: a
comma-ok map lookup whose miss branch selects `PacketTypeUnknown`. -/
def resolvePortNum (portnum : Nat) : Nat :=
  match PortNumToPacketType.lookup portnum with
  | some t => t
  | none => PacketTypeUnknown

/-- `make(chan *Packet, 100)` in `NewClient`. -/
def queueCapacity : Nat := 100

/-- The non-blocking enqueue performed at each `select { case c.packets
<- packet: default: drop }` site in `Client.handleRawData`,
`handleTextData` and `handleJSONData`: a buffered channel of capacity
100 accepts the packet when it has room; the `default` branch drops it
(with a log line) when the buffer is full, so the submitter never
blocks.  Modelled as a total function on the queue contents. -/
def enqueuePacket (queue : List Packet) (packet : Packet) : List Packet :=
  if queue.length < queueCapacity then queue ++ [packet] else queue

/-- Insert-or-increment on a count map, as Go's `m[k]++` behaves:
the first matching key is bumped, a missing key is created at 1. -/
def bumpCount : List (Nat × Nat) → Nat → List (Nat × Nat)
  | [], key => [(key, 1)]
  | (k, v) :: rest, key =>
    if k = key then (k, v + 1) :: rest else (k, v) :: bumpCount rest key

/-- Go's `m[k]` read on a count map: 0 for a missing key. -/
def lookupCount (counts : List (Nat × Nat)) (key : Nat) : Nat :=
  match counts.lookup key with
  | some v => v
  | none => 0

def sumCounts (counts : List (Nat × Nat)) : Nat := (counts.map Prod.snd).sum

/-- Embedding of `meshtastic.Statistics` (maps as association lists;
`StartTime`/`LastPacketTime` are wall-clock and not modelled; the
`float32` averages are modelled as `ℚ`). -/
structure Statistics where
  totalPackets : Nat := 0
  packetsByType : List (Nat × Nat) := []
  packetsByChannel : List (Nat × Nat) := []
  averageRSSI : ℚ := 0
  averageSNR : ℚ := 0
  deriving DecidableEq

/-- Embedding of `Client.updateStatistics`: increment the total and the
per-type/per-channel counts unconditionally, then update each running
average only for a non-zero sample — set it when the stored average is
zero, otherwise replace it with the mean of the stored average and the
sample. -/
def updateStatistics (stats : Statistics) (packet : Packet) : Statistics :=
  let s1 : Statistics :=
    { stats with
      totalPackets := stats.totalPackets + 1
      packetsByType := bumpCount stats.packetsByType packet.type
      packetsByChannel := bumpCount stats.packetsByChannel packet.channel }
  let s2 : Statistics :=
    if packet.rxRSSI ≠ 0 then
      if s1.averageRSSI = 0 then { s1 with averageRSSI := (packet.rxRSSI : ℚ) }
      else { s1 with averageRSSI := (s1.averageRSSI + (packet.rxRSSI : ℚ)) / 2 }
    else s1
  if packet.rxSNR ≠ 0 then
    if s2.averageSNR = 0 then { s2 with averageSNR := packet.rxSNR }
    else { s2 with averageSNR := (s2.averageSNR + packet.rxSNR) / 2 }
  else s2

/-- The statistics a fresh `NewClient` starts with: zero counters and
empty maps. -/
def initialStats : Statistics := {}

/-- The pipeline consumer routing a sequence of packets through the
aggregator, one `updateStatistics` call each. -/
def recordAll (stats : Statistics) (packets : List Packet) : Statistics :=
  packets.foldl updateStatistics stats

/-- A packet carrying only an RSSI sample, for the averaging claims. -/
def rssiPacket (sample : Int) : Packet := { rxRSSI := sample }

/-- Embedding of `meshtastic.ParseRawPacket`.  The classification chain
(`inferPacketType`) and the payload decoding (`decodePayload`) run only
on inputs strictly longer than 16 bytes and are abstracted as the
parameters `inferT` and `decodeP`, so the theorems about the 16-byte
header hold for every classification function.  The `Bool` result
records whether `globalPacketStats.IncrementPacketType` was called
(which the Go code does only in the `len(data) > 16` branch);
`RxTime: time.Now()` is wall-clock and not modelled. -/
def ParseRawPacket (inferT : List Nat → Nat)
    (decodeP : Nat → List Nat → Option DecodedData)
    (data : List Nat) : Option Packet × Bool :=
  if data.length < 16 then (none, false)
  else
    let flags := le32 data 12
    let base : Packet :=
      { id := le32 data 0
        fromNode := le32 data 4
        toNode := le32 data 8
        channel := flags &&& 0xFF
        hopCount := flags >>> 8 &&& 0xFF
        hopLimit := flags >>> 16 &&& 0xFF
        priority := flags >>> 24 &&& 0xFF
        raw := data }
    if 16 < data.length then
      let payload := data.drop 16
      let t := inferT payload
      (some { base with type := t, payload := payload, decodedData := decodeP t payload },
       true)
    else (some base, false)

end GoMesh

namespace GoMesh

/-- C8: Port-number resolution is total and table-driven: every entry of
the fixed mapping table resolves to its table value — in particular port
4 resolves to the node-identity type — and a port number absent from the
table, such as 99999, resolves to Unknown rather than an error. -/
theorem port_mapping :
    (∀ entry ∈ PortNumToPacketType, resolvePortNum entry.1 = entry.2) ∧
    resolvePortNum 4 = PacketTypeNodeInfo ∧
    resolvePortNum 99999 = PacketTypeUnknown := by
  refine ⟨?_, by decide, by decide⟩
  decide

/-- Closed witness for `port_mapping`: its table clause applied at the
port-4 entry. -/
theorem port_mapping_witness :
    resolvePortNum (4, PacketTypeNodeInfo).1 = (4, PacketTypeNodeInfo).2 :=
  port_mapping.1 (4, PacketTypeNodeInfo) (by decide)

/-- C6: Bounded-queue backpressure: the packet queue has capacity 100;
enqueueing into a full queue drops the packet, returning the queue
unchanged (and, the operation being a total function, without blocking);
enqueueing into a non-full queue appends; hence for every sequence of
submitted packets the queue length never exceeds 100. -/
theorem queue_backpressure :
    (∀ (q : List Packet) (p : Packet), q.length = queueCapacity →
      enqueuePacket q p = q) ∧
    (∀ (q : List Packet) (p : Packet), q.length < queueCapacity →
      enqueuePacket q p = q ++ [p]) ∧
    (∀ (chunks : List Packet) (q : List Packet), q.length ≤ queueCapacity →
      (chunks.foldl enqueuePacket q).length ≤ queueCapacity) := by
  refine ⟨?_, ?_, ?_⟩
  · intro q p h
    have : ¬ q.length < queueCapacity := by omega
    simp [enqueuePacket, this]
  · intro q p h
    simp [enqueuePacket, h]
  · intro chunks
    induction chunks with
    | nil => intro q h; simpa using h
    | cons p rest ih =>
      intro q h
      rw [List.foldl_cons]
      apply ih
      rw [enqueuePacket]
      split
      · simp
        omega
      · exact h

/-- Closed witness for `queue_backpressure`: a full queue of 100 default
packets drops the next packet; an empty queue accepts it. -/
theorem queue_backpressure_witness :
    enqueuePacket (List.replicate 100 ({} : Packet)) {} = List.replicate 100 {} ∧
    enqueuePacket ([] : List Packet) {} = [] ++ [({} : Packet)] :=
  ⟨queue_backpressure.1 (List.replicate 100 {}) {} (by simp [queueCapacity]),
   queue_backpressure.2.1 [] {} (by simp [queueCapacity])⟩

theorem sumCounts_bump (counts : List (Nat × Nat)) (key : Nat) :
    sumCounts (bumpCount counts key) = sumCounts counts + 1 := by
  induction counts with
  | nil => simp [bumpCount, sumCounts]
  | cons kv rest ih =>
    obtain ⟨k, v⟩ := kv
    rw [bumpCount]
    split
    · simp [sumCounts]
      omega
    · simp [sumCounts] at ih ⊢
      omega

theorem lookupCount_bump (counts : List (Nat × Nat)) (key : Nat) :
    lookupCount (bumpCount counts key) key = lookupCount counts key + 1 := by
  induction counts with
  | nil => simp [bumpCount, lookupCount, List.lookup]
  | cons kv rest ih =>
    obtain ⟨k, v⟩ := kv
    rw [bumpCount]
    split
    · rename_i hk
      subst hk
      simp [lookupCount, List.lookup]
    · rename_i hk
      have hne : (key == k) = false := by
        simp
        omega
      simp [lookupCount, List.lookup, hne] at ih ⊢
      exact ih

theorem updateStatistics_counts (s : Statistics) (p : Packet) :
    (updateStatistics s p).totalPackets = s.totalPackets + 1 ∧
    (updateStatistics s p).packetsByType = bumpCount s.packetsByType p.type ∧
    (updateStatistics s p).packetsByChannel = bumpCount s.packetsByChannel p.channel := by
  rw [updateStatistics]
  split_ifs <;> simp

/-- The invariant of C9: both per-key count maps sum to the total. -/
def statsInvariant (s : Statistics) : Prop :=
  sumCounts s.packetsByType = s.totalPackets ∧
  sumCounts s.packetsByChannel = s.totalPackets

/-- C9: `record` increments the total, the count of the packet's type and
the count of the packet's channel by exactly one each; consequently the
invariant "sum of per-type counts = total_packets = sum of per-channel
counts" is preserved by every record operation, and holds after routing
any sequence of packets through the aggregator exactly once, starting
from a fresh client's statistics (with the total equal to the number of
packets routed). -/
theorem statistics_counting :
    (∀ (s : Statistics) (p : Packet),
      (updateStatistics s p).totalPackets = s.totalPackets + 1 ∧
      lookupCount (updateStatistics s p).packetsByType p.type
        = lookupCount s.packetsByType p.type + 1 ∧
      lookupCount (updateStatistics s p).packetsByChannel p.channel
        = lookupCount s.packetsByChannel p.channel + 1) ∧
    (∀ (s : Statistics) (p : Packet), statsInvariant s →
      statsInvariant (updateStatistics s p)) ∧
    (∀ packets : List Packet, statsInvariant (recordAll initialStats packets) ∧
      (recordAll initialStats packets).totalPackets = packets.length) := by
  have hstep : ∀ (s : Statistics) (p : Packet), statsInvariant s →
      statsInvariant (updateStatistics s p) := by
    intro s p ⟨h1, h2⟩
    obtain ⟨ht, hty, hch⟩ := updateStatistics_counts s p
    constructor
    · rw [ht, hty, sumCounts_bump, h1]
    · rw [ht, hch, sumCounts_bump, h2]
  have hfold : ∀ (packets : List Packet) (s : Statistics), statsInvariant s →
      statsInvariant (recordAll s packets) ∧
      (recordAll s packets).totalPackets = s.totalPackets + packets.length := by
    intro packets
    induction packets with
    | nil => intro s h; exact ⟨h, by simp [recordAll]⟩
    | cons p rest ih =>
      intro s h
      have hrec : recordAll s (p :: rest) = recordAll (updateStatistics s p) rest := by
        simp [recordAll]
      obtain ⟨hinv, htot⟩ := ih (updateStatistics s p) (hstep s p h)
      refine ⟨hrec ▸ hinv, ?_⟩
      rw [hrec, htot, (updateStatistics_counts s p).1]
      simp [List.length_cons]
      omega
  refine ⟨?_, hstep, ?_⟩
  · intro s p
    obtain ⟨ht, hty, hch⟩ := updateStatistics_counts s p
    exact ⟨ht, by rw [hty, lookupCount_bump], by rw [hch, lookupCount_bump]⟩
  · intro packets
    have := hfold packets initialStats (by constructor <;> rfl)
    simpa [initialStats] using this

/-- Closed witness for `statistics_counting`: its clauses applied to one
concrete packet and a concrete two-packet sequence. -/
theorem statistics_counting_witness :
    (updateStatistics initialStats { type := 2, channel := 1 }).totalPackets
      = initialStats.totalPackets + 1 ∧
    statsInvariant (updateStatistics initialStats { type := 2, channel := 1 }) ∧
    (recordAll initialStats [{ type := 2 }, { type := 2, channel := 1 }]).totalPackets
      = [({ type := 2 } : Packet), { type := 2, channel := 1 }].length :=
  ⟨(statistics_counting.1 initialStats { type := 2, channel := 1 }).1,
   statistics_counting.2.1 initialStats { type := 2, channel := 1 }
     (by constructor <;> rfl),
   (statistics_counting.2.2 [{ type := 2 }, { type := 2, channel := 1 }]).2⟩

end GoMesh

namespace GoMesh

/-- C5 (counterexample): the claim's rule — "on the first non-zero sample
the average is set to that sample, and on each later non-zero sample the
average becomes the arithmetic mean of the previous average and the new
sample" — fails on the code.  After the non-zero samples −80 and +80 the
stored average is exactly 0, and the code then treats the third non-zero
sample −90 as if the average were unset, setting the average to −90
rather than to the mean (0 + (−90)) / 2 = −45 the claim prescribes for a
later sample. -/
theorem statistics_averaging_cex :
    (recordAll initialStats [rssiPacket (-80), rssiPacket 80]).averageRSSI = 0 ∧
    (recordAll initialStats
        [rssiPacket (-80), rssiPacket 80, rssiPacket (-90)]).averageRSSI = -90 ∧
    ((0 : ℚ) + -90) / 2 ≠ (-90 : ℚ) := by
  refine ⟨?_, ?_, by norm_num⟩ <;>
    norm_num [recordAll, updateStatistics, initialStats, rssiPacket, bumpCount]

/-- C5 (amended): the running RSSI (and SNR) average is updated only by
non-zero samples; whenever the stored average is zero ("unset") a
non-zero sample sets the average to itself, and otherwise the average
becomes the arithmetic mean of the previous average and the new sample
(exact-arithmetic model of the `float32` state).  In particular recording
−80 then −90 from a fresh client yields −80 and then −85. -/
theorem statistics_averaging_amended :
    (∀ (s : Statistics) (p : Packet), p.rxRSSI = 0 →
      (updateStatistics s p).averageRSSI = s.averageRSSI) ∧
    (∀ (s : Statistics) (p : Packet), p.rxRSSI ≠ 0 → s.averageRSSI = 0 →
      (updateStatistics s p).averageRSSI = (p.rxRSSI : ℚ)) ∧
    (∀ (s : Statistics) (p : Packet), p.rxRSSI ≠ 0 → s.averageRSSI ≠ 0 →
      (updateStatistics s p).averageRSSI = (s.averageRSSI + (p.rxRSSI : ℚ)) / 2) ∧
    (∀ (s : Statistics) (p : Packet), p.rxSNR = 0 →
      (updateStatistics s p).averageSNR = s.averageSNR) ∧
    (∀ (s : Statistics) (p : Packet), p.rxSNR ≠ 0 → s.averageSNR = 0 →
      (updateStatistics s p).averageSNR = p.rxSNR) ∧
    (∀ (s : Statistics) (p : Packet), p.rxSNR ≠ 0 → s.averageSNR ≠ 0 →
      (updateStatistics s p).averageSNR = (s.averageSNR + p.rxSNR) / 2) ∧
    (recordAll initialStats [rssiPacket (-80)]).averageRSSI = -80 ∧
    (recordAll initialStats [rssiPacket (-80), rssiPacket (-90)]).averageRSSI = -85 := by
  refine ⟨?_, ?_, ?_, ?_, ?_, ?_, ?_, ?_⟩
  · intro s p h
    rw [updateStatistics]
    split_ifs <;> simp_all
  · intro s p h h0
    rw [updateStatistics]
    split_ifs <;> simp_all
  · intro s p h h0
    rw [updateStatistics]
    split_ifs <;> simp_all
  · intro s p h
    rw [updateStatistics]
    split_ifs <;> simp_all
  · intro s p h h0
    rw [updateStatistics]
    split_ifs <;> simp_all
  · intro s p h h0
    rw [updateStatistics]
    split_ifs <;> simp_all
  · norm_num [recordAll, updateStatistics, initialStats, rssiPacket, bumpCount]
  · norm_num [recordAll, updateStatistics, initialStats, rssiPacket, bumpCount]

/-- Closed witness for `statistics_averaging_amended`: a zero sample is
ignored, the first non-zero sample sets the average, and a later sample
against a non-zero average takes the two-term mean. -/
theorem statistics_averaging_amended_witness :
    (updateStatistics initialStats (rssiPacket 0)).averageRSSI
      = initialStats.averageRSSI ∧
    (updateStatistics initialStats (rssiPacket (-80))).averageRSSI
      = ((rssiPacket (-80)).rxRSSI : ℚ) ∧
    (updateStatistics { averageRSSI := -80 } (rssiPacket (-90))).averageRSSI
      = (Statistics.averageRSSI { averageRSSI := -80 }
          + ((rssiPacket (-90)).rxRSSI : ℚ)) / 2 :=
  ⟨statistics_averaging_amended.1 initialStats (rssiPacket 0) rfl,
   statistics_averaging_amended.2.1 initialStats (rssiPacket (-80))
     (by norm_num [rssiPacket]) rfl,
   statistics_averaging_amended.2.2.1 { averageRSSI := -80 } (rssiPacket (-90))
     (by norm_num [rssiPacket]) (by norm_num)⟩

/-- C10: for every input of exactly 16 bytes — and every classification
and payload-decoding function, since neither runs on such an input —
`ParseRawPacket` succeeds and returns a packet whose ID, From, To and
flags word (channel, hop count, hop limit, priority bytes) are read
little-endian from the 16 header bytes, whose payload is empty, whose
type is Unknown (zero) and whose decoded data is absent, without
incrementing the global packet-type statistics counter; the counter is
incremented exactly when the input is strictly longer than 16 bytes
(among inputs of at least 16 bytes); shorter inputs fail with an error
and no counter increment. -/
theorem parse_raw_16_bytes :
    (∀ (inferT : List Nat → Nat) (decodeP : Nat → List Nat → Option DecodedData)
        (data : List Nat), data.length = 16 →
      ParseRawPacket inferT decodeP data
        = (some { id := le32 data 0, fromNode := le32 data 4, toNode := le32 data 8,
                  channel := le32 data 12 &&& 0xFF,
                  hopCount := le32 data 12 >>> 8 &&& 0xFF,
                  hopLimit := le32 data 12 >>> 16 &&& 0xFF,
                  priority := le32 data 12 >>> 24 &&& 0xFF,
                  type := PacketTypeUnknown, payload := [], decodedData := none,
                  raw := data }, false)) ∧
    (∀ (inferT : List Nat → Nat) (decodeP : Nat → List Nat → Option DecodedData)
        (data : List Nat), 16 ≤ data.length →
      ((ParseRawPacket inferT decodeP data).2 = true ↔ 16 < data.length)) ∧
    (∀ (inferT : List Nat → Nat) (decodeP : Nat → List Nat → Option DecodedData)
        (data : List Nat), data.length < 16 →
      ParseRawPacket inferT decodeP data = (none, false)) ∧
    ParseRawPacket (fun _ => 5) (fun _ _ => some (DecodedData.text []))
        [1, 0, 0, 0, 2, 0, 0, 0, 3, 0, 0, 0, 7, 1, 2, 3]
      = (some { id := 1, fromNode := 2, toNode := 3, channel := 7, hopCount := 1,
                hopLimit := 2, priority := 3, type := PacketTypeUnknown,
                payload := [], decodedData := none,
                raw := [1, 0, 0, 0, 2, 0, 0, 0, 3, 0, 0, 0, 7, 1, 2, 3] }, false) := by
  refine ⟨?_, ?_, ?_, by decide⟩
  · intro inferT decodeP data h
    have h1 : ¬ data.length < 16 := by omega
    have h2 : ¬ 16 < data.length := by omega
    simp [ParseRawPacket, h1, h2]
  · intro inferT decodeP data h
    have h1 : ¬ data.length < 16 := by omega
    rw [ParseRawPacket]
    simp only [h1, if_false]
    by_cases h2 : 16 < data.length <;> simp [h2]
  · intro inferT decodeP data h
    simp [ParseRawPacket, h]

/-- Closed witness for `parse_raw_16_bytes`: its clauses applied at a
concrete 16-byte input and a concrete 17-byte input. -/
theorem parse_raw_16_bytes_witness :
    ParseRawPacket (fun _ => 0) (fun _ _ => none)
        [0, 0, 0, 0, 0, 0, 0, 0, 0, 0, 0, 0, 0, 0, 0, 0]
      = (some { id := le32 [0, 0, 0, 0, 0, 0, 0, 0, 0, 0, 0, 0, 0, 0, 0, 0] 0,
                fromNode := le32 [0, 0, 0, 0, 0, 0, 0, 0, 0, 0, 0, 0, 0, 0, 0, 0] 4,
                toNode := le32 [0, 0, 0, 0, 0, 0, 0, 0, 0, 0, 0, 0, 0, 0, 0, 0] 8,
                channel := le32 [0, 0, 0, 0, 0, 0, 0, 0, 0, 0, 0, 0, 0, 0, 0, 0] 12 &&& 0xFF,
                hopCount := le32 [0, 0, 0, 0, 0, 0, 0, 0, 0, 0, 0, 0, 0, 0, 0, 0] 12 >>> 8 &&& 0xFF,
                hopLimit := le32 [0, 0, 0, 0, 0, 0, 0, 0, 0, 0, 0, 0, 0, 0, 0, 0] 12 >>> 16 &&& 0xFF,
                priority := le32 [0, 0, 0, 0, 0, 0, 0, 0, 0, 0, 0, 0, 0, 0, 0, 0] 12 >>> 24 &&& 0xFF,
                type := PacketTypeUnknown, payload := [], decodedData := none,
                raw := [0, 0, 0, 0, 0, 0, 0, 0, 0, 0, 0, 0, 0, 0, 0, 0] }, false) ∧
    ((ParseRawPacket (fun _ => 0) (fun _ _ => none)
        [0, 0, 0, 0, 0, 0, 0, 0, 0, 0, 0, 0, 0, 0, 0, 0, 9]).2 = true
      ↔ 16 < ([0, 0, 0, 0, 0, 0, 0, 0, 0, 0, 0, 0, 0, 0, 0, 0, 9] : List Nat).length) :=
  ⟨parse_raw_16_bytes.1 (fun _ => 0) (fun _ _ => none) _ (by decide),
   parse_raw_16_bytes.2.1 (fun _ => 0) (fun _ _ => none) _ (by decide)⟩

end GoMesh

namespace GoMesh

/-! ## Terminal sanitization (utils.SanitizeForTerminal) and the node
directory (meshtastic.NodeDB)

Strings are UTF-8 byte lists.  `SanitizeForTerminal` is the three-pass
Go function: emoji byte-pattern replacement, rune filtering, then a
control-character regex and `strings.TrimSpace`. -/

/-- The loop of `strings.ReplaceAll s pat rep` (non-overlapping,
left-to-right, no rescan of the replacement).  Each step consumes at
least one byte of `s`, so `s.length` fuel is never exhausted (the
zero-fuel case has `s = []`).  The Go behavior for an empty pattern
(interleaving) is never exercised: every pattern in the table below is
non-empty, and the guard makes an empty pattern act as the identity. -/
def replaceAllAux : Nat → List Nat → List Nat → List Nat → List Nat
  | 0, s, _, _ => s
  | _ + 1, [], _, _ => []
  | fuel + 1, c :: rest, pat, rep =>
    if pat ≠ [] ∧ (c :: rest).take pat.length = pat then
      rep ++ replaceAllAux fuel ((c :: rest).drop pat.length) pat rep
    else c :: replaceAllAux fuel rest pat rep

def replaceAll (s pat rep : List Nat) : List Nat :=
  replaceAllAux s.length s pat rep

/-- The `emojis` replacement table of `SanitizeForTerminal`: UTF-8 byte
patterns and their ASCII tags, in source order.  (Go iterates the map in
unspecified order; the patterns are pairwise non-overlapping and no
replacement contains a byte ≥ 0x80, so the result does not depend on
the order.  The source snapshot stores the literals mojibake-encoded
(UTF-8 read as cp1254); the bytes below reverse that, with the few
cp1254-unmappable bytes restored from the per-entry emoji comments.
Every theorem below evaluates the table only on ASCII strings, where
any all-non-ASCII pattern acts as the identity.) -/
def emojiReplacements : List (List Nat × List Nat) :=
  [([0xF0, 0x9F, 0x93, 0xA1], [0x5B, 0x53, 0x41, 0x54, 0x5D]),        -- 1F4E1 [SAT]
   ([0xF0, 0x9F, 0x93, 0xBB], [0x5B, 0x52, 0x41, 0x44, 0x5D]),        -- 1F4FB [RAD]
   ([0xF0, 0x9F, 0x94, 0xA5], [0x5B, 0x46, 0x49, 0x52, 0x45, 0x5D]),  -- 1F525 [FIRE]
   ([0xE2, 0x9A, 0xA1], [0x5B, 0x42, 0x4F, 0x4C, 0x54, 0x5D]),        -- 26A1 [BOLT]
   ([0xF0, 0x9F, 0x9A, 0x80], [0x5B, 0x52, 0x4F, 0x43, 0x4B, 0x5D]),  -- 1F680 [ROCK]
   ([0xF0, 0x9F, 0x8C, 0x90], [0x5B, 0x47, 0x4C, 0x4F, 0x42, 0x5D]),  -- 1F310 [GLOB]
   ([0xF0, 0x9F, 0x93, 0xB6], [0x5B, 0x53, 0x49, 0x47, 0x5D]),        -- 1F4F6 [SIG]
   ([0xF0, 0x9F, 0x94, 0x8B], [0x5B, 0x42, 0x41, 0x54, 0x5D]),        -- 1F50B [BAT]
   ([0xF0, 0x9F, 0x92, 0xBB], [0x5B, 0x43, 0x4F, 0x4D, 0x50, 0x5D]),  -- 1F4BB [COMP]
   ([0xF0, 0x9F, 0x93, 0xB1], [0x5B, 0x4D, 0x4F, 0x42, 0x5D]),        -- 1F4F1 [MOB]
   ([0xF0, 0x9F, 0x8E, 0xAF], [0x5B, 0x54, 0x41, 0x52, 0x47, 0x5D]),  -- 1F3AF [TARG]
   ([0xF0, 0x9F, 0x94, 0x97], [0x5B, 0x4C, 0x49, 0x4E, 0x4B, 0x5D]),  -- 1F517 [LINK]
   ([0xE2, 0xAD, 0x90], [0x5B, 0x53, 0x54, 0x41, 0x52, 0x5D]),        -- 2B50 [STAR]
   ([0xF0, 0x9F, 0x8F, 0xA0], [0x5B, 0x48, 0x4F, 0x4D, 0x45, 0x5D]),  -- 1F3E0 [HOME]
   ([0xF0, 0x9F, 0x9A, 0x97], [0x5B, 0x43, 0x41, 0x52, 0x5D]),        -- 1F697 [CAR]
   ([0xE2, 0x9C, 0x88, 0xEF, 0xB8, 0x8F], [0x5B, 0x50, 0x4C, 0x41, 0x4E, 0x5D]),  -- 2708 FE0F [PLAN]
   ([0xF0, 0x9F, 0x9B, 0xB0, 0xEF, 0xB8, 0x8F], [0x5B, 0x53, 0x41, 0x54, 0x32, 0x5D]),  -- 1F6F0 FE0F [SAT2]
   ([0xF0, 0x9F, 0x94, 0x8C], [0x5B, 0x50, 0x4C, 0x55, 0x47, 0x5D]),  -- 1F50C [PLUG]
   ([0xF0, 0x9F, 0x8C, 0x8D], [0x5B, 0x45, 0x41, 0x52, 0x54, 0x48, 0x5D])]  -- 1F30D [EARTH]

/-- The first pass of `SanitizeForTerminal`: one `strings.ReplaceAll`
per table entry. -/
def applyEmojiReplacements (s : List Nat) : List Nat :=
  emojiReplacements.foldl (fun acc pr => replaceAll acc pr.1 pr.2) s

def contByte (b : Nat) : Bool := 0x80 ≤ b && b ≤ 0xBF

/-- UTF-8 decoding as Go's `for _, r := range s` performs it: each
valid encoding yields its code point, an invalid byte yields U+FFFD and
advances one byte.  Fuel is `s.length`; each step consumes at least one
byte, so it is never exhausted (the zero-fuel case has `s = []`). -/
def decodeRunesAux : Nat → List Nat → List Nat
  | 0, _ => []
  | _ + 1, [] => []
  | fuel + 1, b1 :: rest =>
    if b1 < 0x80 then b1 :: decodeRunesAux fuel rest
    else if 0xC2 ≤ b1 && b1 ≤ 0xDF then
      match rest with
      | b2 :: rest2 =>
        if contByte b2 then
          ((b1 - 0xC0) * 0x40 + (b2 - 0x80)) :: decodeRunesAux fuel rest2
        else 0xFFFD :: decodeRunesAux fuel rest
      | [] => [0xFFFD]
    else if 0xE0 ≤ b1 && b1 ≤ 0xEF then
      match rest with
      | b2 :: b3 :: rest3 =>
        if ((if b1 = 0xE0 then 0xA0 ≤ b2 && b2 ≤ 0xBF
             else if b1 = 0xED then 0x80 ≤ b2 && b2 ≤ 0x9F
             else contByte b2) && contByte b3) then
          ((b1 - 0xE0) * 0x1000 + (b2 - 0x80) * 0x40 + (b3 - 0x80))
            :: decodeRunesAux fuel rest3
        else 0xFFFD :: decodeRunesAux fuel rest
      | _ => 0xFFFD :: decodeRunesAux fuel rest
    else if 0xF0 ≤ b1 && b1 ≤ 0xF4 then
      match rest with
      | b2 :: b3 :: b4 :: rest4 =>
        if ((if b1 = 0xF0 then 0x90 ≤ b2 && b2 ≤ 0xBF
             else if b1 = 0xF4 then 0x80 ≤ b2 && b2 ≤ 0x8F
             else contByte b2) && contByte b3 && contByte b4) then
          ((b1 - 0xF0) * 0x40000 + (b2 - 0x80) * 0x1000 + (b3 - 0x80) * 0x40 + (b4 - 0x80))
            :: decodeRunesAux fuel rest4
        else 0xFFFD :: decodeRunesAux fuel rest
      | _ => 0xFFFD :: decodeRunesAux fuel rest
    else 0xFFFD :: decodeRunesAux fuel rest

def decodeRunes (s : List Nat) : List Nat := decodeRunesAux s.length s

/-- UTF-8 encoding of one code point (as `strings.Builder.WriteRune`). -/
def encodeRune (r : Nat) : List Nat :=
  if r < 0x80 then [r]
  else if r < 0x800 then [0xC0 + r / 0x40, 0x80 + r % 0x40]
  else if r < 0x10000 then [0xE0 + r / 0x1000, 0x80 + r / 0x40 % 0x40, 0x80 + r % 0x40]
  else [0xF0 + r / 0x40000, 0x80 + r / 0x1000 % 0x40, 0x80 + r / 0x40 % 0x40, 0x80 + r % 0x40]

/-- Modelled from the spec: `isProblematicForTerminal` ends with
`unicode.In(r, unicode.Mn, unicode.Mc, unicode.Me)` — the Unicode
combining-mark tables of Go's standard library, external to `src/`.
Modelled by the principal combining blocks; every theorem below
evaluates the predicate only at ASCII code points, where it agrees with
the real tables (no combining mark lies below U+0300). -/
def isCombiningMark (r : Nat) : Bool :=
  (0x300 ≤ r && r ≤ 0x36F) || (0x1AB0 ≤ r && r ≤ 0x1AFF) ||
  (0x1DC0 ≤ r && r ≤ 0x1DFF) || (0x20D0 ≤ r && r ≤ 0x20FF) ||
  (0xFE20 ≤ r && r ≤ 0xFE2F)

/-- Embedding of `utils.isProblematicForTerminal`: control characters,
the listed emoji/symbol blocks, the zero-width joiner, and combining
marks. -/
def isProblematicForTerminal (r : Nat) : Bool :=
  if r < 32 || (127 ≤ r && r < 160) then true
  else if (0x1F600 ≤ r && r ≤ 0x1F64F) || (0x1F300 ≤ r && r ≤ 0x1F5FF) ||
      (0x1F680 ≤ r && r ≤ 0x1F6FF) || (0x1F700 ≤ r && r ≤ 0x1F77F) ||
      (0x1F780 ≤ r && r ≤ 0x1F7FF) || (0x1F800 ≤ r && r ≤ 0x1F8FF) ||
      (0x1F900 ≤ r && r ≤ 0x1F9FF) || (0x1FA00 ≤ r && r ≤ 0x1FA6F) ||
      (0x1FA70 ≤ r && r ≤ 0x1FAFF) || (0x2600 ≤ r && r ≤ 0x26FF) ||
      (0x2700 ≤ r && r ≤ 0x27BF) || (0xFE00 ≤ r && r ≤ 0xFE0F) ||
      r = 0x200D then true
  else isCombiningMark r

/-- The rune set of the final cleanup regex `[\x00-\x1F\x7F-\x9F]`. -/
def regexCtl (r : Nat) : Bool := r ≤ 0x1F || (0x7F ≤ r && r ≤ 0x9F)

/-- Unicode White_Space, as `strings.TrimSpace`/`unicode.IsSpace`. -/
def isGoSpace (r : Nat) : Bool :=
  r = 9 || r = 10 || r = 11 || r = 12 || r = 13 || r = 32 || r = 0x85 || r = 0xA0 ||
  r = 0x1680 || (0x2000 ≤ r && r ≤ 0x200A) || r = 0x2028 || r = 0x2029 ||
  r = 0x202F || r = 0x205F || r = 0x3000

def trimSpaceRunes (runes : List Nat) : List Nat :=
  ((runes.dropWhile (fun r => isGoSpace r)).reverse.dropWhile
    (fun r => isGoSpace r)).reverse

/-- Embedding of `utils.SanitizeForTerminal`: emoji replacement, then
the rune filter dropping problematic runes, then the control-character
regex and `TrimSpace` (both operate on the valid-UTF-8 intermediate
string, hence at rune level), re-encoded to bytes. -/
def SanitizeForTerminal (s : List Nat) : List Nat :=
  if s = [] then s
  else
    let replaced := applyEmojiReplacements s
    let filtered := (decodeRunes replaced).filter (fun r => ! isProblematicForTerminal r)
    let cleaned := filtered.filter (fun r => ! regexCtl r)
    (trimSpaceRunes cleaned).foldr (fun r acc => encodeRune r ++ acc) []

/-- Embedding of `meshtastic.SimpleNodeInfo`. -/
structure SimpleNodeInfo where
  id : List Nat := []
  longName : List Nat := []
  shortName : List Nat := []
  deriving DecidableEq

def hexDigit (n : Nat) : Nat := if n < 10 then 48 + n else 87 + n

/-- `fmt.Sprintf("!%08x", nodeID)` for a `uint32` node id: a `!`
followed by 8 lowercase hex digits. -/
def hexID (nodeID : Nat) : List Nat :=
  0x21 :: (List.range 8).reverse.map (fun i => hexDigit (nodeID >>> (4 * i) &&& 0xF))

/-- The node map of `meshtastic.NodeDB`, as an association list. -/
def lookupNode (db : List (Nat × SimpleNodeInfo)) (nodeID : Nat) :
    Option SimpleNodeInfo :=
  db.lookup nodeID

/-- Embedding of `NodeDB.GetNodeName`: hex fallback for unknown nodes;
otherwise the sanitized long name if the raw long name is non-empty,
else the sanitized short name if non-empty, else the id string verbatim
if non-empty, else the hex fallback. -/
def GetNodeName (db : List (Nat × SimpleNodeInfo)) (nodeID : Nat) : List Nat :=
  match lookupNode db nodeID with
  | none => hexID nodeID
  | some node =>
    if node.longName ≠ [] then SanitizeForTerminal node.longName
    else if node.shortName ≠ [] then SanitizeForTerminal node.shortName
    else if node.id ≠ [] then node.id
    else hexID nodeID

/-- Embedding of `NodeDB.GetNodeShortName`: hex fallback for unknown
nodes; otherwise the sanitized short name if non-empty, else the
sanitized long name truncated to its first 8 BYTES when longer, else the
hex fallback. -/
def GetNodeShortName (db : List (Nat × SimpleNodeInfo)) (nodeID : Nat) : List Nat :=
  match lookupNode db nodeID with
  | none => hexID nodeID
  | some node =>
    if node.shortName ≠ [] then SanitizeForTerminal node.shortName
    else if node.longName ≠ [] then
      let sanitized := SanitizeForTerminal node.longName
      if sanitized.length ≤ 8 then sanitized else sanitized.take 8
    else hexID nodeID

end GoMesh

namespace GoMesh

/-- Printable ASCII with no spaces: the class of strings on which the
sanitizer acts as the identity. -/
def PlainAscii (s : List Nat) : Prop := ∀ b ∈ s, 0x21 ≤ b ∧ b ≤ 0x7E

instance (s : List Nat) : Decidable (PlainAscii s) :=
  inferInstanceAs (Decidable (∀ b ∈ s, 0x21 ≤ b ∧ b ≤ 0x7E))

theorem replaceAllAux_ascii :
    ∀ (fuel : Nat) (s pat rep : List Nat), (∀ b ∈ s, b < 0x80) →
      pat ≠ [] → 0x80 ≤ pat.headD 0 → replaceAllAux fuel s pat rep = s := by
  intro fuel
  induction fuel with
  | zero => intro s pat rep _ _ _; rfl
  | succ fuel ih =>
    intro s pat rep hs hne hhead
    cases s with
    | nil => rfl
    | cons c rest =>
      rw [replaceAllAux]
      have hnotpre : ¬ (pat ≠ [] ∧ (c :: rest).take pat.length = pat) := by
        rintro ⟨-, htake⟩
        cases hp : pat.length with
        | zero => exact hne (List.length_eq_zero.mp hp)
        | succ m =>
          rw [hp, List.take_succ_cons] at htake
          have hc : pat.headD 0 = c := by rw [← htake]; rfl
          have := hs c (by simp)
          omega
      rw [if_neg hnotpre]
      have := ih rest pat rep (fun b hb => hs b (by simp [hb])) hne hhead
      rw [this]

theorem foldl_replaceAll_ascii :
    ∀ (table : List (List Nat × List Nat)) (s : List Nat),
      (∀ b ∈ s, b < 0x80) →
      (∀ pr ∈ table, pr.1 ≠ [] ∧ 0x80 ≤ pr.1.headD 0) →
      table.foldl (fun acc pr => replaceAll acc pr.1 pr.2) s = s := by
  intro table
  induction table with
  | nil => intro s _ _; rfl
  | cons pr rest ih =>
    intro s hs hp
    have h1 := hp pr (by simp)
    rw [List.foldl_cons]
    have hstep : replaceAll s pr.1 pr.2 = s :=
      replaceAllAux_ascii s.length s pr.1 pr.2 hs h1.1 h1.2
    rw [hstep]
    exact ih s hs (fun q hq => hp q (by simp [hq]))

theorem decodeRunesAux_ascii :
    ∀ (fuel : Nat) (s : List Nat), s.length ≤ fuel → (∀ b ∈ s, b < 0x80) →
      decodeRunesAux fuel s = s := by
  intro fuel
  induction fuel with
  | zero =>
    intro s hlen _
    have : s = [] := List.length_eq_zero.mp (by omega)
    rw [this, decodeRunesAux]
  | succ fuel ih =>
    intro s hlen hs
    cases s with
    | nil => rfl
    | cons b1 rest =>
      have hb1 : b1 < 0x80 := hs b1 (by simp)
      have ihr := ih rest (by simp at hlen ⊢; omega) (fun b hb => hs b (by simp [hb]))
      simp [decodeRunesAux, hb1, ihr]

theorem plain_runes_keep :
    ∀ r < 0x7F, 0x21 ≤ r →
      (isProblematicForTerminal r = false ∧ regexCtl r = false ∧
        isGoSpace r = false) := by decide

theorem dropWhile_eq_self_of_not (p : Nat → Bool) :
    ∀ s : List Nat, (∀ b ∈ s, p b = false) → s.dropWhile p = s := by
  intro s h
  cases s with
  | nil => rfl
  | cons c rest => simp [List.dropWhile, h c (by simp)]

theorem trimSpaceRunes_eq_self {s : List Nat}
    (h : ∀ b ∈ s, isGoSpace b = false) : trimSpaceRunes s = s := by
  rw [trimSpaceRunes, dropWhile_eq_self_of_not _ s h,
    dropWhile_eq_self_of_not _ s.reverse (fun b hb => h b (List.mem_reverse.mp hb)),
    List.reverse_reverse]

theorem encode_foldr_ascii :
    ∀ s : List Nat, (∀ b ∈ s, b < 0x80) →
      s.foldr (fun r acc => encodeRune r ++ acc) [] = s := by
  intro s h
  induction s with
  | nil => rfl
  | cons c rest ih =>
    rw [List.foldr_cons, ih (fun b hb => h b (by simp [hb]))]
    have hc : c < 0x80 := h c (by simp)
    simp [encodeRune, hc]

/-- On printable-ASCII, space-free strings the sanitizer is the
identity: no emoji pattern matches (they all start with a byte ≥ 0x80),
decoding is trivial, no rune is problematic or a control or a space. -/
theorem sanitize_plain {s : List Nat} (h : PlainAscii s) :
    SanitizeForTerminal s = s := by
  rw [SanitizeForTerminal]
  by_cases hs : s = []
  · simp [hs]
  · have hlt : ∀ b ∈ s, b < 0x80 := fun b hb => by have := h b hb; omega
    have hkeep : ∀ b ∈ s, isProblematicForTerminal b = false ∧
        regexCtl b = false ∧ isGoSpace b = false := by
      intro b hb
      have hb1 := h b hb
      exact plain_runes_keep b (by omega) hb1.1
    have h1 : List.filter (fun r => ! isProblematicForTerminal r) s = s :=
      List.filter_eq_self.mpr (fun b hb => by
        have := (hkeep b hb).1
        simp [this])
    have h2 : List.filter (fun r => ! regexCtl r) s = s :=
      List.filter_eq_self.mpr (fun b hb => by
        have := (hkeep b hb).2.1
        simp [this])
    have h3 : trimSpaceRunes s = s :=
      trimSpaceRunes_eq_self (fun b hb => (hkeep b hb).2.2)
    simp only [hs, if_false]
    rw [applyEmojiReplacements, foldl_replaceAll_ascii _ s hlt (by decide),
      decodeRunes, decodeRunesAux_ascii s.length s (Nat.le_refl _) hlt,
      h1, h2, h3, encode_foldr_ascii s hlt]

end GoMesh

namespace GoMesh

/-- C7 (counterexample): `resolve_name` does NOT return the long name
whenever it is non-empty: a record whose long name is the non-empty
string " " (one space) resolves to the empty string, because the code
returns the terminal-SANITIZED long name and sanitization trims
whitespace. -/
theorem name_resolution_cex :
    GetNodeName [(0, { longName := [0x20] })] 0 = [] ∧
    ([0x20] : List Nat) ≠ [] := by decide

/-- C7 (amended): name resolution precedence with sanitization: when the
raw long name is non-empty, `resolve_name` returns the terminal-sanitized
long name (the long name itself whenever it is printable ASCII without
spaces); else the sanitized short name when non-empty; else the id
string verbatim when non-empty; else the `!%08x` fallback (also used for
unknown nodes).  `resolve_short_name` prefers the sanitized short name,
else the sanitized long name truncated to its first 8 bytes.  The spec's
examples hold: long name "Alice" resolves to "Alice", and an all-empty
record at node id 0 resolves to "!00000000". -/
theorem name_resolution_amended :
    (∀ (db : List (Nat × SimpleNodeInfo)) (n : Nat) (node : SimpleNodeInfo),
      lookupNode db n = some node → node.longName ≠ [] → PlainAscii node.longName →
      GetNodeName db n = node.longName) ∧
    (∀ (db : List (Nat × SimpleNodeInfo)) (n : Nat) (node : SimpleNodeInfo),
      lookupNode db n = some node → node.longName = [] → node.shortName ≠ [] →
      PlainAscii node.shortName → GetNodeName db n = node.shortName) ∧
    (∀ (db : List (Nat × SimpleNodeInfo)) (n : Nat) (node : SimpleNodeInfo),
      lookupNode db n = some node → node.longName = [] → node.shortName = [] →
      node.id ≠ [] → GetNodeName db n = node.id) ∧
    (∀ (db : List (Nat × SimpleNodeInfo)) (n : Nat) (node : SimpleNodeInfo),
      lookupNode db n = some node → node.longName = [] → node.shortName = [] →
      node.id = [] → GetNodeName db n = hexID n) ∧
    (∀ (db : List (Nat × SimpleNodeInfo)) (n : Nat),
      lookupNode db n = none → GetNodeName db n = hexID n) ∧
    (∀ (db : List (Nat × SimpleNodeInfo)) (n : Nat) (node : SimpleNodeInfo),
      lookupNode db n = some node → node.shortName ≠ [] →
      PlainAscii node.shortName → GetNodeShortName db n = node.shortName) ∧
    (∀ (db : List (Nat × SimpleNodeInfo)) (n : Nat) (node : SimpleNodeInfo),
      lookupNode db n = some node → node.shortName = [] → node.longName ≠ [] →
      PlainAscii node.longName → GetNodeShortName db n = node.longName.take 8) ∧
    GetNodeName [(5, { longName := [0x41, 0x6C, 0x69, 0x63, 0x65] })] 5
      = [0x41, 0x6C, 0x69, 0x63, 0x65] ∧
    GetNodeName [(0, {})] 0
      = [0x21, 0x30, 0x30, 0x30, 0x30, 0x30, 0x30, 0x30, 0x30] := by
  refine ⟨?_, ?_, ?_, ?_, ?_, ?_, ?_, by decide, by decide⟩
  · intro db n node hlk h1 hp
    simp only [GetNodeName, hlk]
    simp [h1, sanitize_plain hp]
  · intro db n node hlk h1 h2 hp
    simp only [GetNodeName, hlk]
    simp [h1, h2, sanitize_plain hp]
  · intro db n node hlk h1 h2 h3
    simp only [GetNodeName, hlk]
    simp [h1, h2, h3]
  · intro db n node hlk h1 h2 h3
    simp only [GetNodeName, hlk]
    simp [h1, h2, h3]
  · intro db n hlk
    simp only [GetNodeName, hlk]
  · intro db n node hlk h1 hp
    simp only [GetNodeShortName, hlk]
    simp [h1, sanitize_plain hp]
  · intro db n node hlk h1 h2 hp
    simp only [GetNodeShortName, hlk]
    simp only [h1, ne_eq, not_true_eq_false, if_false, h2, not_false_eq_true, if_true,
      sanitize_plain hp]
    split
    · rename_i hle
      rw [List.take_of_length_le hle]
    · rfl

/-- Closed witness for `name_resolution_amended`: the precedence clauses
applied at concrete records ("Bob"; a 9-character long name truncated to
8; an id-only record; an unknown node). -/
theorem name_resolution_amended_witness :
    GetNodeName [(1, { longName := [0x42, 0x6F, 0x62] })] 1 = [0x42, 0x6F, 0x62] ∧
    GetNodeShortName
        [(2, { longName := [0x41, 0x42, 0x43, 0x44, 0x45, 0x46, 0x47, 0x48, 0x49] })] 2
      = [0x41, 0x42, 0x43, 0x44, 0x45, 0x46, 0x47, 0x48, 0x49].take 8 ∧
    GetNodeName [(3, { id := [0x21, 0x61, 0x62] })] 3 = [0x21, 0x61, 0x62] ∧
    GetNodeName [] 7 = hexID 7 :=
  ⟨name_resolution_amended.1 [(1, { longName := [0x42, 0x6F, 0x62] })] 1
     { longName := [0x42, 0x6F, 0x62] } rfl (by decide) (by decide),
   name_resolution_amended.2.2.2.2.2.2.1
     [(2, { longName := [0x41, 0x42, 0x43, 0x44, 0x45, 0x46, 0x47, 0x48, 0x49] })] 2
     { longName := [0x41, 0x42, 0x43, 0x44, 0x45, 0x46, 0x47, 0x48, 0x49] }
     rfl rfl (by decide) (by decide),
   name_resolution_amended.2.2.1 [(3, { id := [0x21, 0x61, 0x62] })] 3
     { id := [0x21, 0x61, 0x62] } rfl rfl rfl (by decide),
   name_resolution_amended.2.2.2.2.1 [] 7 rfl⟩

end GoMesh
